import Mathlib

set_option maxRecDepth 8192

/-!
Verification of the explanation pipeline of `src/gemini.py` (with the
call sites in `src/main.py`).

Python strings are modelled as lists of characters (`PyStr`), Python
floats produced by the coverage computation as rationals (the source only
ever forms quotients of small integer cardinalities and compares them with
0), Python dicts with the four optional section keys as a structure with
`Option` fields, and the two external collaborators (the spaCy tagger and
the Gemini HTTP endpoint) as function parameters, following the interface
contract in the spec.  A generation attempt that raises anywhere inside
the `try` block (network error, `raise_for_status`, JSON indexing) is
modelled as the generator returning `none` for that attempt.
-/

/-- Python strings, modelled as lists of characters. -/
abbrev PyStr := List Char

/-- Character list of a Lean string literal. -/
def str (s : String) : PyStr := s.data

/-- Leading-whitespace removal (the left half of Python `str.strip()`). -/
def trimL (s : PyStr) : PyStr := s.dropWhile Char.isWhitespace

/-- Trailing-whitespace removal (the right half of Python `str.strip()`). -/
def trimR : PyStr → PyStr
  | [] => []
  | c :: rest =>
    match trimR rest with
    | [] => if c.isWhitespace then [] else [c]
    | d :: t => c :: d :: t

/-- Python `str.strip()`: whitespace removed from both ends. -/
def pyStrip (s : PyStr) : PyStr := trimR (trimL s)

/-- Python `str.lower()` (ASCII case folding; header matching in the
source only involves ASCII letters). -/
def pyLower (s : PyStr) : PyStr := s.map Char.toLower

/-- Split at every separator character recognised by `p`; like Python
`str.split(sep)`, the empty string yields `[[]]` and separators are not
merged. -/
def splitP (p : Char → Bool) : PyStr → List PyStr
  | [] => [[]]
  | c :: rest =>
    match splitP p rest with
    | [] => [[c]]
    | h :: t => if p c then [] :: h :: t else (c :: h) :: t

/-- Python `str.split("\n")`. -/
def pyLines (s : PyStr) : List PyStr := splitP (fun c => c == '\n') s

/-- Python `str.split()` with no argument: maximal non-whitespace runs. -/
def pyWords (s : PyStr) : List PyStr :=
  (splitP Char.isWhitespace s).filter (fun w => w != [])

/-- Python `str.join`: `joinSep sep [a, b, c] = a ++ sep ++ b ++ sep ++ c`. -/
def joinSep (sep : PyStr) : List PyStr → PyStr
  | [] => []
  | [l] => l
  | l :: l2 :: rest => l ++ sep ++ joinSep sep (l2 :: rest)

/-- One token of the external tagging model (spaCy interface): surface
form `text`, lemma `lemma_` and coarse part-of-speech tag `pos_`,
exactly the three attributes `extract_key_concepts` reads. -/
structure TagTok where
  text : PyStr
  lemma_ : PyStr
  pos_ : PyStr
deriving DecidableEq

/-- The external `ConceptTagger` capability: `nlp(text)` as a sequence of
tagged tokens. -/
abbrev Tagger := PyStr → List TagTok

/-- `gemini.py` lines 64-71, `extract_key_concepts`: on falsy (empty)
input return the empty set, otherwise the deduplicated set of lowercased
lemmas of the tokens whose tag is NOUN or PROPN and whose surface form is
longer than 2 characters (Python builds `list(set(...))`; only the
underlying set is ever used, so the result is a `Finset`). -/
def extract_key_concepts (nlp : Tagger) (text : PyStr) : Finset PyStr :=
  if text = [] then ∅
  else
    (((nlp text).filter (fun token =>
        decide ((token.pos_ = str "NOUN" ∨ token.pos_ = str "PROPN") ∧
          2 < token.text.length))).map
      (fun token => pyLower token.lemma_)).toFinset

/-- A candidate response as the callers hand it to
`validate_response_coverage`: a Python dict in which each of the four
section keys may be absent (`gemini.py` reads every key with
`dict.get` and a default). -/
structure GeminiResponse where
  simple_explanation : Option PyStr
  signs_to_notice : Option (List PyStr)
  care_advice : Option (List PyStr)
  doctor_consultation_advice : Option PyStr
deriving DecidableEq

/-- `gemini.py` lines 83-88: the candidate's comparable text, a
space-join of the four (defaulted) section values. -/
def respText (gemini_response : GeminiResponse) : PyStr :=
  joinSep (str " ")
    [gemini_response.simple_explanation.getD [],
     joinSep (str " ") (gemini_response.signs_to_notice.getD []),
     joinSep (str " ") (gemini_response.care_advice.getD []),
     gemini_response.doctor_consultation_advice.getD []]

/-- `gemini.py` lines 74-99, `validate_response_coverage`: 1.0 for a
falsy reference definition; otherwise the fraction of reference concepts
found among the candidate concepts, with the Python conditional
expression falling back to 0.0 when the reference concept list is empty.
The `threshold` parameter (default 0.4 in the source) is accepted and,
as in the source, never read. -/
def validate_response_coverage (nlp : Tagger) (umls_definition : PyStr)
    (gemini_response : GeminiResponse) (threshold : ℚ) : ℚ :=
  if umls_definition = [] then 1
  else if extract_key_concepts nlp umls_definition = ∅ then 0
  else ((extract_key_concepts nlp umls_definition ∩
          extract_key_concepts nlp (respText gemini_response)).card : ℚ) /
        ((extract_key_concepts nlp umls_definition).card : ℚ)

/-- The parser's result record (`sections` dict in
`parse_gemini_response`, which always carries all four keys). -/
structure Sections where
  simple_explanation : PyStr
  signs_to_notice : List PyStr
  care_advice : List PyStr
  doctor_consultation_advice : PyStr
deriving DecidableEq

/-- The parser's dict, viewed as a candidate mapping with every key
present. -/
def Sections.toResp (s : Sections) : GeminiResponse :=
  ⟨some s.simple_explanation, some s.signs_to_notice,
   some s.care_advice, some s.doctor_consultation_advice⟩

/-- The parser's `current_section` values (Python uses the key strings;
`Option SectionKind` with `none` for "no section yet"). -/
inductive SectionKind
  | simple
  | signs
  | care
  | doctor
deriving DecidableEq

/-- Effect of `re.sub(r"^HEADER[:\s]*", "", line, flags=re.IGNORECASE)`
on a line already known to start with the `n`-character header: the
header is dropped together with the greedy run of colons and whitespace
after it. -/
def colWs (c : Char) : Bool := c == ':' || c.isWhitespace

def dropHeader (n : Nat) (line : PyStr) : PyStr :=
  (line.drop n).dropWhile colWs

/-- One iteration of the loop body of `parse_gemini_response`
(`gemini.py` lines 118-139) applied to the already-stripped line. -/
def parseLineCore (st : Sections × Option SectionKind) (line : PyStr) :
    Sections × Option SectionKind :=
  if (str "simple explanation").isPrefixOf (pyLower line) then
    ({st.1 with simple_explanation := pyStrip (dropHeader 18 line)},
     some SectionKind.simple)
  else if (str "signs to notice").isPrefixOf (pyLower line) then
    (st.1, some SectionKind.signs)
  else if (str "care advice").isPrefixOf (pyLower line) then
    (st.1, some SectionKind.care)
  else if (str "doctor consultation").isPrefixOf (pyLower line) then
    ({st.1 with doctor_consultation_advice := pyStrip (dropHeader 19 line)},
     some SectionKind.doctor)
  else if st.2 = some SectionKind.signs ∧ (str "•").isPrefixOf line then
    ({st.1 with signs_to_notice :=
        st.1.signs_to_notice ++ [pyStrip (line.filter (fun c => c != '•'))]},
     st.2)
  else if st.2 = some SectionKind.care ∧ (str "•").isPrefixOf line then
    ({st.1 with care_advice :=
        st.1.care_advice ++ [pyStrip (line.filter (fun c => c != '•'))]},
     st.2)
  else if st.2 = some SectionKind.simple ∧ (str "**").isPrefixOf line = false then
    ({st.1 with simple_explanation :=
        st.1.simple_explanation ++ str " " ++ line}, st.2)
  else st

/-- The loop body including the initial `line = line.strip()`. -/
def parseLine (st : Sections × Option SectionKind) (rawLine : PyStr) :
    Sections × Option SectionKind :=
  parseLineCore st (pyStrip rawLine)

/-- `gemini.py` lines 101-142, `parse_gemini_response`: strip the raw
text, split it on newlines and fold the state machine over the lines,
starting from all-empty sections and no current section. -/
def parse_gemini_response (response_text : PyStr) : Sections :=
  ((pyLines (pyStrip response_text)).foldl parseLine
    (⟨[], [], [], []⟩, (none : Option SectionKind))).1

/-- Truthiness of the coverage float in `if validate_response_coverage(...)`
(`gemini.py` line 202): any nonzero value is truthy. -/
def pyTruthy (x : ℚ) : Bool := decide (x ≠ 0)

/-- The generation prompt of `gemini.py` lines 156-175 (an f-string with
the term, reference definition and caller-supplied explanation
interpolated). -/
def craftPrompt (term umls_definition simplified_explanation : PyStr) : PyStr :=
  str "\n            Medical Term: " ++ term ++
  str "\n            UMLS Definition: " ++ umls_definition ++
  str "\n            Simplified Explanation: " ++ simplified_explanation ++
  str "\n\n            Generate a structured response with the following sections:\n\n            SIMPLE EXPLANATION: [One clear, non-technical sentence about the medical term]\n            SIGNS TO NOTICE:\n            • [First sign to look out for]\n            • [Second sign to notice]\n            • [Third sign to be aware of]\n            CARE ADVICE:\n            • [First practical care tip]\n            • [Second helpful care suggestion]\n            • [Third self-care recommendation]\n            DOCTOR CONSULTATION: [One sentence advising when to seek medical help]\n\n            Ensure clinical accuracy and integrate UMLS concepts.\n            "

/-- The two shapes `query_gemini` can return: the accepted dict of
`gemini.py` lines 203-208 or the fallback dict of lines 221-228. -/
inductive PipelineResult where
  | Accepted (term : PyStr) (medical_details : GeminiResponse)
      (umls_definition : PyStr) (total_tokens : Nat)
  | Fallback (term : PyStr) (medical_details : GeminiResponse)
      (error : PyStr) (fallback_explanation : PyStr)
deriving DecidableEq

/-- The fallback's `medical_details` dict (`gemini.py` lines 223-225): a
mapping carrying only the `simple_explanation` key. -/
def fallbackDetails (term : PyStr) : GeminiResponse :=
  ⟨some (str "Could not generate an explanation for " ++ term),
   none, none, none⟩

/-- The full fallback return value of `gemini.py` lines 221-228. -/
def fallbackResult (term simplified_explanation : PyStr) : PipelineResult :=
  PipelineResult.Fallback term (fallbackDetails term)
    (str "Could not generate an accurate medical explanation")
    simplified_explanation

/-- `umls_definition` as computed at `gemini.py` line 150: first returned
definition, or the empty string when the lookup yields none (a failing
lookup is already degraded to an empty list inside `fetch_umls_data`). -/
def lookupDef (lookup : PyStr → List PyStr) (term : PyStr) : PyStr :=
  match lookup term with
  | [] => []
  | d :: _ => d

/-- Whether attempt `i` of the retry loop is accepted: the generator must
return text (no exception) and the parsed candidate's coverage must be
truthy, exactly the acceptance test at `gemini.py` line 202. -/
def attemptOk (nlp : Tagger) (gen : Nat → Option PyStr)
    (umls_definition : PyStr) (i : Nat) : Bool :=
  match gen i with
  | none => false
  | some txt =>
    pyTruthy (validate_response_coverage nlp umls_definition
      (parse_gemini_response txt).toResp (2/5))

/-- The `for attempt in range(max_attempts)` loop of `gemini.py`
lines 153-218.  `gen attempt = none` models an exception anywhere in the
attempt's `try` block; the second component counts generator invocations
(one per loop iteration, as `requests.post` runs once per iteration). -/
def geminiLoop (nlp : Tagger) (gen : Nat → Option PyStr)
    (term umls_definition simplified_explanation : PyStr) :
    Nat → Nat → Nat → Option PipelineResult × Nat
  | 0, _, calls => (none, calls)
  | fuel + 1, attempt, calls =>
    match gen attempt with
    | none =>
      geminiLoop nlp gen term umls_definition simplified_explanation
        fuel (attempt + 1) (calls + 1)
    | some txt =>
      if pyTruthy (validate_response_coverage nlp umls_definition
          (parse_gemini_response txt).toResp (2/5)) then
        (some (PipelineResult.Accepted term (parse_gemini_response txt).toResp
          umls_definition
          ((pyWords (craftPrompt term umls_definition
              simplified_explanation)).length + (pyWords txt).length)),
         calls + 1)
      else
        geminiLoop nlp gen term umls_definition simplified_explanation
          fuel (attempt + 1) (calls + 1)

/-- `gemini.py` lines 144-228, `query_gemini`, with the external tagger,
reference lookup and text generator as parameters.  Returns the
`PipelineResult` together with the number of generator invocations. -/
def query_gemini (nlp : Tagger) (lookup : PyStr → List PyStr)
    (gen : Nat → Option PyStr) (term simplified_explanation : PyStr)
    (max_attempts : Nat) : PipelineResult × Nat :=
  match geminiLoop nlp gen term (lookupDef lookup term)
      simplified_explanation max_attempts 0 0 with
  | (some r, calls) => (r, calls)
  | (none, calls) => (fallbackResult term simplified_explanation, calls)

/-- Whether a `PipelineResult` is the Accepted variant. -/
def isAccepted : PipelineResult → Bool
  | PipelineResult.Accepted _ _ _ _ => true
  | PipelineResult.Fallback _ _ _ _ => false

/-- A re-rendered bullet-list line, as described by claim C8. -/
def bulletLine (i : PyStr) : PyStr := str "• " ++ i

/-- The lines of the re-rendering described by claim C8: the four headers
in order, the free-text fields on their header lines, each list entry on
its own line prefixed with the bullet marker. -/
def renderLines (s : Sections) : List PyStr :=
  [str "SIMPLE EXPLANATION: " ++ s.simple_explanation,
   str "SIGNS TO NOTICE:"] ++
  s.signs_to_notice.map bulletLine ++
  [str "CARE ADVICE:"] ++
  s.care_advice.map bulletLine ++
  [str "DOCTOR CONSULTATION: " ++ s.doctor_consultation_advice]

/-- The re-rendering described by claim C8, as a single newline-joined
text. -/
def renderSections (s : Sections) : PyStr :=
  joinSep (str "\n") (renderLines s)

/-- A deterministic stand-in for the external tagging model (the spec's
design notes call for exactly such a substitutable fake): every
whitespace-separated word is a NOUN whose lemma is the word itself. -/
def wsTagger : Tagger :=
  fun text => (pyWords text).map (fun w => ⟨w, w, str "NOUN"⟩)

/-- A tagger output in which a token longer than 2 characters carries a
1-character lemma (as real lemmatizers can produce, e.g. "TVs" -> "tv"). -/
def shortLemmaTagger : Tagger :=
  fun _ => [⟨str "cats", str "c", str "NOUN"⟩]

/-- Does a stripped line match one of the four recognised headers
(case-insensitive prefix match, as the `re.match` calls do)? -/
def isHeaderLine (rawLine : PyStr) : Bool :=
  (str "simple explanation").isPrefixOf (pyLower (pyStrip rawLine)) ||
  (str "signs to notice").isPrefixOf (pyLower (pyStrip rawLine)) ||
  (str "care advice").isPrefixOf (pyLower (pyStrip rawLine)) ||
  (str "doctor consultation").isPrefixOf (pyLower (pyStrip rawLine))

/-! Basic facts about the string model. -/

/-- Head-of-list well-formedness: the first character, if any, does not
satisfy `p`. -/
def headOk (p : Char → Bool) : PyStr → Bool
  | [] => true
  | c :: _ => !(p c)

/-- Last-of-list well-formedness: the last character, if any, does not
satisfy `p`. -/
def lastOk (p : Char → Bool) : PyStr → Bool
  | [] => true
  | [c] => !(p c)
  | _ :: c :: rest => lastOk p (c :: rest)

/-- The character `c` does not occur in `s`. -/
def noChar (c : Char) (s : PyStr) : Bool := s.all (fun d => d != c)

lemma splitP_ne_nil (p : Char → Bool) (s : PyStr) : splitP p s ≠ [] := by
  cases s with
  | nil => simp [splitP]
  | cons c rest =>
    simp only [splitP]
    cases h : splitP p rest with
    | nil => simp
    | cons a t => by_cases hc : p c <;> simp [hc]

lemma splitP_cons_eq (p : Char → Bool) (c : Char) (rest : PyStr)
    (a : PyStr) (t : List PyStr) (h : splitP p rest = a :: t) :
    splitP p (c :: rest) =
      if p c then [] :: a :: t else (c :: a) :: t := by
  simp only [splitP, h]

lemma splitP_no_sep (p : Char → Bool) (s : PyStr)
    (h : ∀ c ∈ s, p c = false) : splitP p s = [s] := by
  induction s with
  | nil => rfl
  | cons c rest ih =>
    have hc : p c = false := h c (by simp)
    have hrest := ih (fun d hd => h d (by simp [hd]))
    rw [splitP_cons_eq p c rest rest [] hrest, if_neg (by simp [hc])]

lemma splitP_mem_sep_free (p : Char → Bool) (s : PyStr) :
    ∀ l ∈ splitP p s, ∀ c ∈ l, p c = false := by
  induction s with
  | nil =>
    intro l hl c hc
    simp [splitP] at hl
    subst hl
    simp at hc
  | cons c rest ih =>
    intro l hl d hd
    cases hsp : splitP p rest with
    | nil => exact absurd hsp (splitP_ne_nil p rest)
    | cons a t =>
      rw [splitP_cons_eq p c rest a t hsp] at hl
      by_cases hc : p c
      · rw [if_pos hc] at hl
        rcases List.mem_cons.mp hl with h1 | h1
        · subst h1; simp at hd
        · exact ih l (hsp ▸ h1) d hd
      · rw [if_neg hc] at hl
        have hc' : p c = false := by
          cases hpc : p c
          · rfl
          · exact absurd hpc hc
        rcases List.mem_cons.mp hl with h1 | h1
        · subst h1
          rcases List.mem_cons.mp hd with h2 | h2
          · subst h2; exact hc'
          · exact ih a (hsp ▸ List.mem_cons_self a t) d h2
        · exact ih l (hsp ▸ List.mem_cons_of_mem a h1) d hd

lemma splitP_append_sep (p : Char → Bool) (l s : PyStr) (sep : Char)
    (hl : ∀ c ∈ l, p c = false) (hsep : p sep = true) :
    splitP p (l ++ sep :: s) = l :: splitP p s := by
  induction l with
  | nil =>
    cases hsp : splitP p s with
    | nil => exact absurd hsp (splitP_ne_nil p s)
    | cons a t =>
      rw [List.nil_append, splitP_cons_eq p sep s a t hsp]
      simp [hsep, hsp]
  | cons c cs ih =>
    have hc : p c = false := hl c (by simp)
    have hrest := ih (fun d hd => hl d (by simp [hd]))
    rw [List.cons_append, splitP_cons_eq p c _ _ _ hrest,
      if_neg (by simp [hc])]

lemma joinSep_cons (sep : PyStr) (x y : PyStr) (rest : List PyStr) :
    joinSep sep (x :: y :: rest) = x ++ sep ++ joinSep sep (y :: rest) := rfl

lemma joinSep_snoc (sep : PyStr) (xs : List PyStr) (x : PyStr) (h : xs ≠ []) :
    joinSep sep (xs ++ [x]) = joinSep sep xs ++ sep ++ x := by
  induction xs with
  | nil => exact absurd rfl h
  | cons a as ih =>
    cases as with
    | nil => rfl
    | cons b bs =>
      have h2 := ih (by simp)
      simp only [List.cons_append] at h2 ⊢
      rw [joinSep_cons, h2, joinSep_cons sep a b bs]
      simp [List.append_assoc]

lemma splitP_joinSep (p : Char → Bool) (sep : Char) (L : List PyStr)
    (hL : L ≠ []) (h : ∀ l ∈ L, ∀ c ∈ l, p c = false) (hsep : p sep = true) :
    splitP p (joinSep [sep] L) = L := by
  induction L with
  | nil => exact absurd rfl hL
  | cons l rest ih =>
    cases rest with
    | nil =>
      simp only [joinSep]
      exact splitP_no_sep p l (h l (by simp))
    | cons m ms =>
      rw [joinSep_cons]
      have heq : l ++ [sep] ++ joinSep [sep] (m :: ms) =
          l ++ sep :: joinSep [sep] (m :: ms) := by simp
      rw [heq, splitP_append_sep p l _ sep (h l (by simp)) hsep,
        ih (by simp) (fun x hx => h x (by simp [hx]))]

lemma dropWhile_cons_of_true {p : Char → Bool} {c : Char} {s : PyStr}
    (h : p c = true) : (c :: s).dropWhile p = s.dropWhile p := by
  simp [List.dropWhile, h]

lemma dropWhile_cons_of_false {p : Char → Bool} {c : Char} {s : PyStr}
    (h : p c = false) : (c :: s).dropWhile p = c :: s := by
  simp [List.dropWhile, h]

lemma dropWhile_of_headOk {p : Char → Bool} {s : PyStr}
    (h : headOk p s = true) : s.dropWhile p = s := by
  cases s with
  | nil => rfl
  | cons c rest =>
    simp only [headOk, Bool.not_eq_true'] at h
    exact dropWhile_cons_of_false h

lemma headOk_dropWhile (p : Char → Bool) (s : PyStr) :
    headOk p (s.dropWhile p) = true := by
  induction s with
  | nil => rfl
  | cons c rest ih =>
    cases hc : p c with
    | true => rw [dropWhile_cons_of_true hc]; exact ih
    | false => rw [dropWhile_cons_of_false hc]; simp [headOk, hc]

lemma headOk_imp {p q : Char → Bool} {s : PyStr}
    (himp : ∀ c, q c = true → p c = true) (h : headOk p s = true) :
    headOk q s = true := by
  cases s with
  | nil => rfl
  | cons c rest =>
    simp only [headOk, Bool.not_eq_true'] at h ⊢
    cases hq : q c with
    | false => rfl
    | true => rw [himp c hq] at h; exact h

lemma lastOk_cons_cons (p : Char → Bool) (a b : Char) (rest : PyStr) :
    lastOk p (a :: b :: rest) = lastOk p (b :: rest) := rfl

lemma trimR_cons (c : Char) (rest : PyStr) :
    trimR (c :: rest) = match trimR rest with
      | [] => if c.isWhitespace then [] else [c]
      | d :: t => c :: d :: t := rfl

lemma trimR_eq_self {s : PyStr} (h : lastOk Char.isWhitespace s = true) :
    trimR s = s := by
  induction s with
  | nil => rfl
  | cons c rest ih =>
    cases rest with
    | nil =>
      simp only [lastOk, Bool.not_eq_true'] at h
      simp [trimR_cons, trimR, h]
    | cons d t =>
      rw [lastOk_cons_cons] at h
      rw [trimR_cons, ih h]
  
lemma trimR_lastOk (s : PyStr) : lastOk Char.isWhitespace (trimR s) = true := by
  induction s with
  | nil => rfl
  | cons c rest ih =>
    rw [trimR_cons]
    cases hr : trimR rest with
    | nil =>
      cases hw : c.isWhitespace with
      | true => simp [hw, lastOk]
      | false => simp [hw, lastOk]
    | cons d t =>
      rw [hr] at ih
      exact (lastOk_cons_cons _ c d t).symm ▸ ih

lemma trimR_headOk {p : Char → Bool} {s : PyStr} (h : headOk p s = true) :
    headOk p (trimR s) = true := by
  cases s with
  | nil => rfl
  | cons c rest =>
    rw [trimR_cons]
    cases hr : trimR rest with
    | nil =>
      cases hw : c.isWhitespace with
      | true => simp [headOk]
      | false => simpa [headOk] using h
    | cons d t => simpa [headOk] using h

lemma trimR_ne_nil_of_head {c : Char} {s : PyStr}
    (hw : c.isWhitespace = false) : trimR (c :: s) ≠ [] := by
  rw [trimR_cons]
  cases hr : trimR s with
  | nil => simp [hw]
  | cons d t => simp

lemma trimR_append {a s : PyStr} (h : trimR s ≠ []) :
    trimR (a ++ s) = a ++ trimR s := by
  induction a with
  | nil => rfl
  | cons x xs ih =>
    rw [List.cons_append, trimR_cons, ih]
    cases htr : trimR s with
    | nil => exact absurd htr h
    | cons d t =>
      cases xs with
      | nil => rfl
      | cons y ys => rfl

lemma all_trimR {q : Char → Bool} {s : PyStr} (h : s.all q = true) :
    (trimR s).all q = true := by
  induction s with
  | nil => rfl
  | cons c rest ih =>
    simp only [List.all_cons, Bool.and_eq_true] at h
    have hrest := ih h.2
    rw [trimR_cons]
    cases hr : trimR rest with
    | nil =>
      cases hw : c.isWhitespace with
      | true => simp [hw]
      | false => simp [hw, h.1]
    | cons d t =>
      rw [hr] at hrest
      simp [h.1, hrest]

lemma pref_cons_cons (a b : Char) (s t : PyStr) :
    (a :: s).isPrefixOf (b :: t) = ((a == b) && s.isPrefixOf t) := rfl

lemma pref_self_append (a b : PyStr) : a.isPrefixOf (a ++ b) = true := by
  induction a with
  | nil => simp [List.isPrefixOf]
  | cons c cs ih => simp [pref_cons_cons, ih]

lemma pref_cons_false {a b : Char} (s t : PyStr) (h : (a == b) = false) :
    (a :: s).isPrefixOf (b :: t) = false := by
  simp [pref_cons_cons, h]

lemma pyStrip_eq_self {s : PyStr} (h1 : headOk Char.isWhitespace s = true)
    (h2 : lastOk Char.isWhitespace s = true) : pyStrip s = s := by
  simp only [pyStrip, trimL]
  rw [dropWhile_of_headOk h1, trimR_eq_self h2]

lemma all_dropWhile {q p : Char → Bool} {s : PyStr} (h : s.all q = true) :
    (s.dropWhile p).all q = true := by
  induction s with
  | nil => rfl
  | cons c rest ih =>
    simp only [List.all_cons, Bool.and_eq_true] at h
    cases hp : p c with
    | true => rw [dropWhile_cons_of_true hp]; exact ih h.2
    | false => rw [dropWhile_cons_of_false hp]; simp [h.1, h.2]

lemma all_drop {q : Char → Bool} {s : PyStr} (n : Nat) (h : s.all q = true) :
    (s.drop n).all q = true := by
  induction n generalizing s with
  | zero => simpa using h
  | succ m ih =>
    cases s with
    | nil => rfl
    | cons c rest =>
      simp only [List.all_cons, Bool.and_eq_true] at h
      rw [List.drop_succ_cons]
      exact ih h.2

lemma all_filter_self (q : Char → Bool) (s : PyStr) :
    (s.filter q).all q = true := by
  rw [List.all_eq_true]
  intro a ha
  exact (List.mem_filter.mp ha).2

lemma all_filter_of_all {q r : Char → Bool} {s : PyStr} (h : s.all q = true) :
    (s.filter r).all q = true := by
  rw [List.all_eq_true] at h ⊢
  intro a ha
  exact h a (List.mem_filter.mp ha).1

lemma all_pyStrip {q : Char → Bool} {s : PyStr} (h : s.all q = true) :
    (pyStrip s).all q = true := all_trimR (all_dropWhile h)

lemma pyStrip_headOk_ws (s : PyStr) :
    headOk Char.isWhitespace (pyStrip s) = true :=
  trimR_headOk (headOk_dropWhile Char.isWhitespace s)

lemma pyStrip_lastOk (s : PyStr) :
    lastOk Char.isWhitespace (pyStrip s) = true := trimR_lastOk _

/-- Well-formedness of a parsed bullet-list entry: trimmed at both ends,
containing neither a bullet marker nor a newline. -/
def itemWf (i : PyStr) : Bool :=
  headOk Char.isWhitespace i && lastOk Char.isWhitespace i &&
  noChar '•' i && noChar '\n' i

/-- Well-formedness of a parsed free-text header field: no leading colon
or whitespace, no trailing whitespace, no newline. -/
def freeWf (s : PyStr) : Bool :=
  headOk colWs s && lastOk Char.isWhitespace s && noChar '\n' s

/-- Invariant maintained by the parser state machine over its `sections`
record. -/
def sectionsWf (s : Sections) : Prop :=
  noChar '\n' s.simple_explanation = true ∧
  freeWf s.doctor_consultation_advice = true ∧
  (∀ i ∈ s.signs_to_notice, itemWf i = true) ∧
  (∀ i ∈ s.care_advice, itemWf i = true)

lemma freeWf_pyStrip_dropHeader {line : PyStr} (n : Nat)
    (h : noChar '\n' line = true) :
    freeWf (pyStrip (dropHeader n line)) = true := by
  have hx : headOk colWs (dropHeader n line) = true := by
    simp only [dropHeader]
    exact headOk_dropWhile colWs _
  have hws : headOk Char.isWhitespace (dropHeader n line) = true :=
    headOk_imp (fun c hc => by simp [colWs, hc]) hx
  have hps : pyStrip (dropHeader n line) = trimR (dropHeader n line) := by
    simp only [pyStrip, trimL]
    rw [dropWhile_of_headOk hws]
  have hnl : (dropHeader n line).all (fun d => d != '\n') = true := by
    simp only [dropHeader]
    exact all_dropWhile (all_drop n h)
  simp only [freeWf, hps, Bool.and_eq_true]
  exact ⟨⟨trimR_headOk hx, trimR_lastOk _⟩, all_trimR hnl⟩

lemma itemWf_pyStrip_filter {line : PyStr} (h : noChar '\n' line = true) :
    itemWf (pyStrip (line.filter (fun c => c != '•'))) = true := by
  simp only [itemWf, Bool.and_eq_true, noChar]
  refine ⟨⟨⟨pyStrip_headOk_ws _, pyStrip_lastOk _⟩, ?_⟩, ?_⟩
  · exact all_pyStrip (all_filter_self _ _)
  · exact all_pyStrip (all_filter_of_all h)

lemma parseLineCore_wf (st : Sections × Option SectionKind) (line : PyStr)
    (hs : sectionsWf st.1) (hl : noChar '\n' line = true) :
    sectionsWf (parseLineCore st line).1 := by
  obtain ⟨h1, h2, h3, h4⟩ := hs
  have hsimple : noChar '\n' (pyStrip (dropHeader 18 line)) = true := by
    simp only [dropHeader, noChar]
    exact all_pyStrip (all_dropWhile (all_drop 18 hl))
  have hdoc : freeWf (pyStrip (dropHeader 19 line)) = true :=
    freeWf_pyStrip_dropHeader 19 hl
  have hitem : itemWf (pyStrip (line.filter (fun c => c != '•'))) = true :=
    itemWf_pyStrip_filter hl
  have hmid : noChar '\n' (str " ") = true := by decide
  unfold parseLineCore
  split
  · exact ⟨hsimple, h2, h3, h4⟩
  · split
    · exact ⟨h1, h2, h3, h4⟩
    · split
      · exact ⟨h1, h2, h3, h4⟩
      · split
        · exact ⟨h1, hdoc, h3, h4⟩
        · split
          · refine ⟨h1, h2, ?_, h4⟩
            intro i hi
            rcases List.mem_append.mp hi with hi | hi
            · exact h3 i hi
            · rw [List.mem_singleton.mp hi]
              exact hitem
          · split
            · refine ⟨h1, h2, h3, ?_⟩
              intro i hi
              rcases List.mem_append.mp hi with hi | hi
              · exact h4 i hi
              · rw [List.mem_singleton.mp hi]
                exact hitem
            · split
              · refine ⟨?_, h2, h3, h4⟩
                simp only [noChar, List.all_append, Bool.and_eq_true]
                exact ⟨⟨h1, hmid⟩, hl⟩
              · exact ⟨h1, h2, h3, h4⟩

lemma parseLine_wf (st : Sections × Option SectionKind) (raw : PyStr)
    (hs : sectionsWf st.1) (hr : noChar '\n' raw = true) :
    sectionsWf (parseLine st raw).1 :=
  parseLineCore_wf st (pyStrip raw) hs (all_pyStrip hr)

lemma foldl_parseLine_wf (lines : List PyStr)
    (st : Sections × Option SectionKind) (hs : sectionsWf st.1)
    (hl : ∀ l ∈ lines, noChar '\n' l = true) :
    sectionsWf (lines.foldl parseLine st).1 := by
  induction lines generalizing st with
  | nil => exact hs
  | cons l rest ih =>
    rw [List.foldl_cons]
    exact ih _ (parseLine_wf st l hs (hl l (by simp)))
      (fun m hm => hl m (by simp [hm]))

lemma wf_parse (x : PyStr) : sectionsWf (parse_gemini_response x) := by
  unfold parse_gemini_response
  apply foldl_parseLine_wf
  · exact ⟨rfl, rfl, by simp, by simp⟩
  · intro l hl
    have hfree := splitP_mem_sep_free _ _ l hl
    simp only [noChar, List.all_eq_true]
    intro c hc
    have h2 := hfree c hc
    simp [bne, h2]

lemma pyLower_append (a b : PyStr) :
    pyLower (a ++ b) = pyLower a ++ pyLower b := List.map_append _ a b

lemma pyLower_cons (c : Char) (s : PyStr) :
    pyLower (c :: s) = c.toLower :: pyLower s := rfl

lemma drop_len_append (a b : PyStr) : (a ++ b).drop a.length = b := by
  induction a with
  | nil => rfl
  | cons c cs ih => simpa using ih

lemma filter_eq_self_of_all {q : Char → Bool} {s : PyStr}
    (h : s.all q = true) : s.filter q = s := by
  induction s with
  | nil => rfl
  | cons c rest ih =>
    simp only [List.all_cons, Bool.and_eq_true] at h
    simp [List.filter_cons, h.1, ih h.2]

lemma parseLine_simple_header (t : Sections) (cur : Option SectionKind)
    (simple : PyStr) (h : freeWf simple = true) :
    parseLine (t, cur) (str "SIMPLE EXPLANATION: " ++ simple) =
      ({t with simple_explanation := simple}, some SectionKind.simple) := by
  have hparts : (headOk colWs simple = true ∧
      lastOk Char.isWhitespace simple = true) ∧ noChar '\n' simple = true := by
    simpa [freeWf, Bool.and_eq_true] using h
  obtain ⟨⟨hhead, hlast⟩, _⟩ := hparts
  by_cases hse : simple = []
  · subst hse
    show parseLineCore _ (pyStrip (str "SIMPLE EXPLANATION: " ++ [])) = _
    rw [List.append_nil,
      show pyStrip (str "SIMPLE EXPLANATION: ") = str "SIMPLE EXPLANATION:"
        from by decide]
    unfold parseLineCore
    rw [if_pos (by decide),
      show pyStrip (dropHeader 18 (str "SIMPLE EXPLANATION:")) = []
        from by decide]
  · have hstrip : pyStrip (str "SIMPLE EXPLANATION: " ++ simple) =
        str "SIMPLE EXPLANATION: " ++ simple := by
      have hA : str "SIMPLE EXPLANATION: " ++ simple =
          'S' :: (str "IMPLE EXPLANATION: " ++ simple) := rfl
      have hts : trimR simple = simple := trimR_eq_self hlast
      simp only [pyStrip, trimL, hA]
      rw [dropWhile_cons_of_false (by decide), ← hA,
        trimR_append (by rw [hts]; exact hse), hts]
    have hcond : (str "simple explanation").isPrefixOf
        (pyLower (str "SIMPLE EXPLANATION: " ++ simple)) = true := by
      rw [pyLower_append,
        show pyLower (str "SIMPLE EXPLANATION: ") = str "simple explanation: "
          from by decide,
        show str "simple explanation: " =
          str "simple explanation" ++ str ": " from by decide,
        List.append_assoc]
      exact pref_self_append _ _
    have hval : pyStrip (dropHeader 18 (str "SIMPLE EXPLANATION: " ++ simple)) =
        simple := by
      have hws : headOk Char.isWhitespace simple = true :=
        headOk_imp (fun c hc => by simp [colWs, hc]) hhead
      rw [show str "SIMPLE EXPLANATION: " ++ simple =
        str "SIMPLE EXPLANATION" ++ (str ": " ++ simple) from by
          rw [show str "SIMPLE EXPLANATION: " =
            str "SIMPLE EXPLANATION" ++ str ": " from by decide,
            List.append_assoc]]
      simp only [dropHeader]
      rw [show (18 : Nat) = (str "SIMPLE EXPLANATION").length from by decide,
        drop_len_append,
        show str ": " ++ simple = ':' :: (' ' :: simple) from rfl,
        dropWhile_cons_of_true (by decide),
        dropWhile_cons_of_true (by decide),
        dropWhile_of_headOk hhead]
      exact pyStrip_eq_self hws hlast
    show parseLineCore _ (pyStrip (str "SIMPLE EXPLANATION: " ++ simple)) = _
    rw [hstrip]
    unfold parseLineCore
    rw [if_pos hcond, hval]

lemma parseLine_signs_header (t : Sections) (cur : Option SectionKind) :
    parseLine (t, cur) (str "SIGNS TO NOTICE:") =
      (t, some SectionKind.signs) := by
  show parseLineCore _ (pyStrip (str "SIGNS TO NOTICE:")) = _
  rw [show pyStrip (str "SIGNS TO NOTICE:") = str "SIGNS TO NOTICE:"
    from by decide]
  unfold parseLineCore
  rw [if_neg (by decide), if_pos (by decide)]

lemma parseLine_care_header (t : Sections) (cur : Option SectionKind) :
    parseLine (t, cur) (str "CARE ADVICE:") = (t, some SectionKind.care) := by
  show parseLineCore _ (pyStrip (str "CARE ADVICE:")) = _
  rw [show pyStrip (str "CARE ADVICE:") = str "CARE ADVICE:" from by decide]
  unfold parseLineCore
  rw [if_neg (by decide), if_neg (by decide), if_pos (by decide)]

lemma parseLine_doctor_header_nil (t : Sections) (cur : Option SectionKind) :
    parseLine (t, cur) (str "DOCTOR CONSULTATION:") =
      ({t with doctor_consultation_advice := []}, some SectionKind.doctor) := by
  show parseLineCore _ (pyStrip (str "DOCTOR CONSULTATION:")) = _
  rw [show pyStrip (str "DOCTOR CONSULTATION:") = str "DOCTOR CONSULTATION:"
    from by decide]
  unfold parseLineCore
  rw [if_neg (by decide), if_neg (by decide), if_neg (by decide),
    if_pos (by decide),
    show pyStrip (dropHeader 19 (str "DOCTOR CONSULTATION:")) = []
      from by decide]

lemma parseLine_doctor_header (t : Sections) (cur : Option SectionKind)
    (doctor : PyStr) (hne : doctor ≠ []) (h : freeWf doctor = true) :
    parseLine (t, cur) (str "DOCTOR CONSULTATION: " ++ doctor) =
      ({t with doctor_consultation_advice := doctor},
       some SectionKind.doctor) := by
  have hparts : (headOk colWs doctor = true ∧
      lastOk Char.isWhitespace doctor = true) ∧ noChar '\n' doctor = true := by
    simpa [freeWf, Bool.and_eq_true] using h
  obtain ⟨⟨hhead, hlast⟩, _⟩ := hparts
  have hts : trimR doctor = doctor := trimR_eq_self hlast
  have hstrip : pyStrip (str "DOCTOR CONSULTATION: " ++ doctor) =
      str "DOCTOR CONSULTATION: " ++ doctor := by
    have hA : str "DOCTOR CONSULTATION: " ++ doctor =
        'D' :: (str "OCTOR CONSULTATION: " ++ doctor) := rfl
    simp only [pyStrip, trimL, hA]
    rw [dropWhile_cons_of_false (by decide), ← hA,
      trimR_append (by rw [hts]; exact hne), hts]
  have hlow : pyLower (str "DOCTOR CONSULTATION: " ++ doctor) =
      str "doctor consultation: " ++ pyLower doctor := by
    rw [pyLower_append,
      show pyLower (str "DOCTOR CONSULTATION: ") = str "doctor consultation: "
        from by decide]
  have hc1 : (str "simple explanation").isPrefixOf
      (pyLower (str "DOCTOR CONSULTATION: " ++ doctor)) = false := by
    rw [hlow, show str "doctor consultation: " ++ pyLower doctor =
      'd' :: (str "octor consultation: " ++ pyLower doctor) from rfl,
      show str "simple explanation" = 's' :: str "imple explanation" from rfl]
    exact pref_cons_false _ _ (by decide)
  have hc2 : (str "signs to notice").isPrefixOf
      (pyLower (str "DOCTOR CONSULTATION: " ++ doctor)) = false := by
    rw [hlow, show str "doctor consultation: " ++ pyLower doctor =
      'd' :: (str "octor consultation: " ++ pyLower doctor) from rfl,
      show str "signs to notice" = 's' :: str "igns to notice" from rfl]
    exact pref_cons_false _ _ (by decide)
  have hc3 : (str "care advice").isPrefixOf
      (pyLower (str "DOCTOR CONSULTATION: " ++ doctor)) = false := by
    rw [hlow, show str "doctor consultation: " ++ pyLower doctor =
      'd' :: (str "octor consultation: " ++ pyLower doctor) from rfl,
      show str "care advice" = 'c' :: str "are advice" from rfl]
    exact pref_cons_false _ _ (by decide)
  have hc4 : (str "doctor consultation").isPrefixOf
      (pyLower (str "DOCTOR CONSULTATION: " ++ doctor)) = true := by
    rw [hlow, show str "doctor consultation: " =
      str "doctor consultation" ++ str ": " from by decide, List.append_assoc]
    exact pref_self_append _ _
  have hval : pyStrip (dropHeader 19 (str "DOCTOR CONSULTATION: " ++ doctor)) =
      doctor := by
    have hws : headOk Char.isWhitespace doctor = true :=
      headOk_imp (fun c hc => by simp [colWs, hc]) hhead
    rw [show str "DOCTOR CONSULTATION: " ++ doctor =
      str "DOCTOR CONSULTATION" ++ (str ": " ++ doctor) from by
        rw [show str "DOCTOR CONSULTATION: " =
          str "DOCTOR CONSULTATION" ++ str ": " from by decide,
          List.append_assoc]]
    simp only [dropHeader]
    rw [show (19 : Nat) = (str "DOCTOR CONSULTATION").length from by decide,
      drop_len_append,
      show str ": " ++ doctor = ':' :: (' ' :: doctor) from rfl,
      dropWhile_cons_of_true (by decide),
      dropWhile_cons_of_true (by decide),
      dropWhile_of_headOk hhead]
    exact pyStrip_eq_self hws hlast
  show parseLineCore _ (pyStrip (str "DOCTOR CONSULTATION: " ++ doctor)) = _
  rw [hstrip]
  unfold parseLineCore
  rw [if_neg (by simp [hc1]), if_neg (by simp [hc2]), if_neg (by simp [hc3]),
    if_pos hc4, hval]

lemma bullet_line_strip (i : PyStr) (hne : i ≠ [])
    (hh : headOk Char.isWhitespace i = true)
    (hl : lastOk Char.isWhitespace i = true) :
    pyStrip (str "• " ++ i) = str "• " ++ i := by
  have hA : str "• " ++ i = '•' :: (' ' :: i) := rfl
  have hts : trimR i = i := trimR_eq_self hl
  simp only [pyStrip, trimL, hA]
  rw [dropWhile_cons_of_false (by decide), ← hA,
    trimR_append (by rw [hts]; exact hne), hts]

lemma bullet_line_conds (rest : PyStr) :
    (str "simple explanation").isPrefixOf (pyLower ('•' :: rest)) = false ∧
    (str "signs to notice").isPrefixOf (pyLower ('•' :: rest)) = false ∧
    (str "care advice").isPrefixOf (pyLower ('•' :: rest)) = false ∧
    (str "doctor consultation").isPrefixOf (pyLower ('•' :: rest)) = false := by
  rw [pyLower_cons, show ('•').toLower = '•' from by decide]
  refine ⟨?_, ?_, ?_, ?_⟩
  · rw [show str "simple explanation" = 's' :: str "imple explanation" from rfl]
    exact pref_cons_false _ _ (by decide)
  · rw [show str "signs to notice" = 's' :: str "igns to notice" from rfl]
    exact pref_cons_false _ _ (by decide)
  · rw [show str "care advice" = 'c' :: str "are advice" from rfl]
    exact pref_cons_false _ _ (by decide)
  · rw [show str "doctor consultation" = 'd' :: str "octor consultation"
      from rfl]
    exact pref_cons_false _ _ (by decide)

lemma bullet_pref (rest : PyStr) :
    (str "•").isPrefixOf ('•' :: rest) = true := by
  simp [pref_cons_cons, List.isPrefixOf]

lemma bullet_value (i : PyStr) (hh : headOk Char.isWhitespace i = true)
    (hl : lastOk Char.isWhitespace i = true) (hb : noChar '•' i = true) :
    pyStrip (('•' :: (' ' :: i)).filter (fun c => c != '•')) = i := by
  rw [List.filter_cons_of_neg (by decide), List.filter_cons_of_pos (by decide),
    filter_eq_self_of_all hb]
  simp only [pyStrip, trimL]
  rw [dropWhile_cons_of_true (by decide), dropWhile_of_headOk hh,
    trimR_eq_self hl]

lemma parseLine_bullet_signs (t : Sections) (i : PyStr)
    (h : itemWf i = true) :
    parseLine (t, some SectionKind.signs) (str "• " ++ i) =
      ({t with signs_to_notice := t.signs_to_notice ++ [i]},
       some SectionKind.signs) := by
  have hparts : ((headOk Char.isWhitespace i = true ∧
      lastOk Char.isWhitespace i = true) ∧ noChar '•' i = true) ∧
      noChar '\n' i = true := by
    simpa [itemWf, Bool.and_eq_true] using h
  obtain ⟨⟨⟨hh, hl⟩, hb⟩, _⟩ := hparts
  by_cases hie : i = []
  · subst hie
    show parseLineCore _ (pyStrip (str "• " ++ [])) = _
    rw [List.append_nil, show pyStrip (str "• ") = str "•" from by decide]
    unfold parseLineCore
    rw [if_neg (by decide), if_neg (by decide), if_neg (by decide),
      if_neg (by decide), if_pos ⟨rfl, by decide⟩,
      show pyStrip ((str "•").filter (fun c => c != '•')) = [] from by decide]
  · obtain ⟨hc1, hc2, hc3, hc4⟩ := bullet_line_conds (' ' :: i)
    have hA : str "• " ++ i = '•' :: (' ' :: i) := rfl
    show parseLineCore _ (pyStrip (str "• " ++ i)) = _
    rw [bullet_line_strip i hie hh hl, hA]
    unfold parseLineCore
    rw [if_neg (by simp [hc1]), if_neg (by simp [hc2]), if_neg (by simp [hc3]),
      if_neg (by simp [hc4]), if_pos ⟨rfl, bullet_pref _⟩,
      bullet_value i hh hl hb]

lemma parseLine_bullet_care (t : Sections) (i : PyStr)
    (h : itemWf i = true) :
    parseLine (t, some SectionKind.care) (str "• " ++ i) =
      ({t with care_advice := t.care_advice ++ [i]},
       some SectionKind.care) := by
  have hparts : ((headOk Char.isWhitespace i = true ∧
      lastOk Char.isWhitespace i = true) ∧ noChar '•' i = true) ∧
      noChar '\n' i = true := by
    simpa [itemWf, Bool.and_eq_true] using h
  obtain ⟨⟨⟨hh, hl⟩, hb⟩, _⟩ := hparts
  by_cases hie : i = []
  · subst hie
    show parseLineCore _ (pyStrip (str "• " ++ [])) = _
    rw [List.append_nil, show pyStrip (str "• ") = str "•" from by decide]
    unfold parseLineCore
    rw [if_neg (by decide), if_neg (by decide), if_neg (by decide),
      if_neg (by decide), if_neg (by simp), if_pos ⟨rfl, by decide⟩,
      show pyStrip ((str "•").filter (fun c => c != '•')) = [] from by decide]
  · obtain ⟨hc1, hc2, hc3, hc4⟩ := bullet_line_conds (' ' :: i)
    have hA : str "• " ++ i = '•' :: (' ' :: i) := rfl
    show parseLineCore _ (pyStrip (str "• " ++ i)) = _
    rw [bullet_line_strip i hie hh hl, hA]
    unfold parseLineCore
    rw [if_neg (by simp [hc1]), if_neg (by simp [hc2]), if_neg (by simp [hc3]),
      if_neg (by simp [hc4]), if_neg (by simp), if_pos ⟨rfl, bullet_pref _⟩,
      bullet_value i hh hl hb]

lemma foldl_bullets_signs (items : List PyStr) (t : Sections)
    (h : ∀ i ∈ items, itemWf i = true) :
    List.foldl parseLine (t, some SectionKind.signs)
      (items.map (fun i => str "• " ++ i)) =
    ({t with signs_to_notice := t.signs_to_notice ++ items},
     some SectionKind.signs) := by
  induction items generalizing t with
  | nil => simp
  | cons i is ih =>
    rw [List.map_cons, List.foldl_cons,
      parseLine_bullet_signs t i (h i (by simp)),
      ih _ (fun j hj => h j (by simp [hj]))]
    simp

lemma foldl_bullets_care (items : List PyStr) (t : Sections)
    (h : ∀ i ∈ items, itemWf i = true) :
    List.foldl parseLine (t, some SectionKind.care)
      (items.map (fun i => str "• " ++ i)) =
    ({t with care_advice := t.care_advice ++ items},
     some SectionKind.care) := by
  induction items generalizing t with
  | nil => simp
  | cons i is ih =>
    rw [List.map_cons, List.foldl_cons,
      parseLine_bullet_care t i (h i (by simp)),
      ih _ (fun j hj => h j (by simp [hj]))]
    simp

lemma headOk_cons (p : Char → Bool) (c : Char) (s : PyStr) :
    headOk p (c :: s) = !(p c) := rfl

lemma noChar_beq {c : Char} {s : PyStr} (h : noChar c s = true) :
    ∀ d ∈ s, (d == c) = false := by
  intro d hd
  have h2 := List.all_eq_true.mp h d hd
  rw [beq_eq_false_iff_ne]
  exact bne_iff_ne.mp h2

lemma noChar_append {c : Char} {a b : PyStr} (h1 : noChar c a = true)
    (h2 : noChar c b = true) : noChar c (a ++ b) = true := by
  simp only [noChar, List.all_append, Bool.and_eq_true]
  exact ⟨h1, h2⟩

lemma itemWf_noNl {i : PyStr} (h : itemWf i = true) :
    noChar '\n' i = true := by
  have hparts : ((headOk Char.isWhitespace i = true ∧
      lastOk Char.isWhitespace i = true) ∧ noChar '•' i = true) ∧
      noChar '\n' i = true := by
    simpa [itemWf, Bool.and_eq_true] using h
  exact hparts.2

lemma pyLines_pyStrip_render (sim doc : PyStr) (sg ca : List PyStr)
    (hsn : noChar '\n' sim = true) (hdn : noChar '\n' doc = true)
    (h3 : ∀ i ∈ sg, itemWf i = true) (h4 : ∀ i ∈ ca, itemWf i = true) :
    pyLines (pyStrip (renderSections ⟨sim, sg, ca, doc⟩)) =
      ((str "SIMPLE EXPLANATION: " ++ sim) :: str "SIGNS TO NOTICE:" ::
        (sg.map bulletLine ++ str "CARE ADVICE:" :: ca.map bulletLine)) ++
      [trimR (str "DOCTOR CONSULTATION: " ++ doc)] := by
  have hA : renderSections ⟨sim, sg, ca, doc⟩ =
      joinSep (str "\n")
        (((str "SIMPLE EXPLANATION: " ++ sim) :: str "SIGNS TO NOTICE:" ::
          (sg.map bulletLine ++ str "CARE ADVICE:" :: ca.map bulletLine)) ++
         [str "DOCTOR CONSULTATION: " ++ doc]) := by
    simp [renderSections, renderLines]
  have hInitNe : ((str "SIMPLE EXPLANATION: " ++ sim) ::
      str "SIGNS TO NOTICE:" ::
      (sg.map bulletLine ++ str "CARE ADVICE:" :: ca.map bulletLine)) ≠
      ([] : List PyStr) := by simp
  have hjs := joinSep_snoc (str "\n")
    ((str "SIMPLE EXPLANATION: " ++ sim) :: str "SIGNS TO NOTICE:" ::
      (sg.map bulletLine ++ str "CARE ADVICE:" :: ca.map bulletLine))
    (str "DOCTOR CONSULTATION: " ++ doc) hInitNe
  have hDne : trimR (str "DOCTOR CONSULTATION: " ++ doc) ≠ [] := by
    rw [show str "DOCTOR CONSULTATION: " ++ doc =
      'D' :: (str "OCTOR CONSULTATION: " ++ doc) from rfl]
    exact trimR_ne_nil_of_head (by decide)
  have hheadJ : headOk Char.isWhitespace
      (joinSep (str "\n")
        ((str "SIMPLE EXPLANATION: " ++ sim) :: str "SIGNS TO NOTICE:" ::
          (sg.map bulletLine ++ str "CARE ADVICE:" :: ca.map bulletLine)) ++
       str "\n" ++ (str "DOCTOR CONSULTATION: " ++ doc)) = true := by
    rw [joinSep_cons,
      show str "SIMPLE EXPLANATION: " ++ sim =
        'S' :: (str "IMPLE EXPLANATION: " ++ sim) from rfl]
    simp only [List.cons_append, List.append_assoc, headOk_cons]
    decide
  have hstrip : pyStrip (renderSections ⟨sim, sg, ca, doc⟩) =
      joinSep (str "\n")
        (((str "SIMPLE EXPLANATION: " ++ sim) :: str "SIGNS TO NOTICE:" ::
          (sg.map bulletLine ++ str "CARE ADVICE:" :: ca.map bulletLine)) ++
         [trimR (str "DOCTOR CONSULTATION: " ++ doc)]) := by
    rw [hA, hjs]
    simp only [pyStrip, trimL]
    rw [dropWhile_of_headOk hheadJ,
      show joinSep (str "\n")
        ((str "SIMPLE EXPLANATION: " ++ sim) :: str "SIGNS TO NOTICE:" ::
          (sg.map bulletLine ++ str "CARE ADVICE:" :: ca.map bulletLine)) ++
        str "\n" ++ (str "DOCTOR CONSULTATION: " ++ doc) =
        (joinSep (str "\n")
          ((str "SIMPLE EXPLANATION: " ++ sim) :: str "SIGNS TO NOTICE:" ::
            (sg.map bulletLine ++ str "CARE ADVICE:" :: ca.map bulletLine)) ++
         str "\n") ++ (str "DOCTOR CONSULTATION: " ++ doc) from by
        simp [List.append_assoc],
      trimR_append hDne,
      joinSep_snoc (str "\n") _ _ hInitNe]
  rw [hstrip]
  have hall : ∀ l ∈ ((str "SIMPLE EXPLANATION: " ++ sim) ::
      str "SIGNS TO NOTICE:" ::
      (sg.map bulletLine ++ str "CARE ADVICE:" :: ca.map bulletLine)) ++
      [trimR (str "DOCTOR CONSULTATION: " ++ doc)],
      ∀ c ∈ l, (c == '\n') = false := by
    intro l hl
    have hncl : noChar '\n' l = true := by
      rcases List.mem_append.mp hl with hl | hl
      · rcases List.mem_cons.mp hl with rfl | hl
        · exact noChar_append (by decide) hsn
        · rcases List.mem_cons.mp hl with rfl | hl
          · decide
          · rcases List.mem_append.mp hl with hl | hl
            · obtain ⟨i, hi, rfl⟩ := List.mem_map.mp hl
              exact noChar_append (by decide) (itemWf_noNl (h3 i hi))
            · rcases List.mem_cons.mp hl with rfl | hl
              · decide
              · obtain ⟨i, hi, rfl⟩ := List.mem_map.mp hl
                exact noChar_append (by decide) (itemWf_noNl (h4 i hi))
      · rw [List.mem_singleton.mp hl]
        exact all_trimR (noChar_append (by decide) hdn)
    exact noChar_beq hncl
  show splitP (fun c => c == '\n') _ = _
  rw [show str "\n" = ['\n'] from rfl]
  exact splitP_joinSep _ '\n' _ (by simp) hall (by decide)

lemma foldl_render_init (sim : PyStr) (sg ca : List PyStr)
    (hsimple : freeWf sim = true)
    (h3 : ∀ i ∈ sg, itemWf i = true) (h4 : ∀ i ∈ ca, itemWf i = true) :
    List.foldl parseLine ((⟨[], [], [], []⟩ : Sections),
        (none : Option SectionKind))
      ((str "SIMPLE EXPLANATION: " ++ sim) :: str "SIGNS TO NOTICE:" ::
        (sg.map bulletLine ++ str "CARE ADVICE:" :: ca.map bulletLine)) =
    ((⟨sim, sg, ca, []⟩ : Sections), some SectionKind.care) := by
  have hb : (fun i => str "• " ++ i) = bulletLine := rfl
  rw [List.foldl_cons, parseLine_simple_header _ _ _ hsimple,
    List.foldl_cons, parseLine_signs_header,
    List.foldl_append]
  rw [show sg.map bulletLine = sg.map (fun i => str "• " ++ i) from rfl,
    foldl_bullets_signs sg _ h3,
    List.foldl_cons, parseLine_care_header]
  rw [show ca.map bulletLine = ca.map (fun i => str "• " ++ i) from rfl,
    foldl_bullets_care ca _ h4]
  simp

lemma parse_render (s : Sections) (hwf : sectionsWf s)
    (hsimple : freeWf s.simple_explanation = true) :
    parse_gemini_response (renderSections s) = s := by
  obtain ⟨sim, sg, ca, doc⟩ := s
  obtain ⟨h1, h2, h3, h4⟩ := hwf
  have hdparts : (headOk colWs doc = true ∧
      lastOk Char.isWhitespace doc = true) ∧ noChar '\n' doc = true := by
    simpa [freeWf, Bool.and_eq_true] using h2
  obtain ⟨⟨hdh, hdl⟩, hdn⟩ := hdparts
  unfold parse_gemini_response
  rw [pyLines_pyStrip_render sim doc sg ca h1 hdn h3 h4,
    List.foldl_append, foldl_render_init sim sg ca hsimple h3 h4]
  by_cases hde : doc = []
  · subst hde
    rw [List.append_nil,
      show trimR (str "DOCTOR CONSULTATION: ") = str "DOCTOR CONSULTATION:"
        from by decide]
    simp only [List.foldl_cons, List.foldl_nil]
    rw [parseLine_doctor_header_nil]
  · have hts : trimR doc = doc := trimR_eq_self hdl
    have hDtr : trimR (str "DOCTOR CONSULTATION: " ++ doc) =
        str "DOCTOR CONSULTATION: " ++ doc :=
      by rw [trimR_append (by rw [hts]; exact hde), hts]
    rw [hDtr]
    simp only [List.foldl_cons, List.foldl_nil]
    rw [parseLine_doctor_header _ _ doc hde h2]

lemma parseLineCore_none (t : Sections) (line : PyStr)
    (h1 : (str "simple explanation").isPrefixOf (pyLower line) = false)
    (h2 : (str "signs to notice").isPrefixOf (pyLower line) = false)
    (h3 : (str "care advice").isPrefixOf (pyLower line) = false)
    (h4 : (str "doctor consultation").isPrefixOf (pyLower line) = false) :
    parseLineCore (t, (none : Option SectionKind)) line = (t, none) := by
  unfold parseLineCore
  rw [if_neg (by simp [h1]), if_neg (by simp [h2]), if_neg (by simp [h3]),
    if_neg (by simp [h4]), if_neg (by simp), if_neg (by simp),
    if_neg (by simp)]

lemma parseLine_no_header (t : Sections) (raw : PyStr)
    (h : isHeaderLine raw = false) :
    parseLine (t, (none : Option SectionKind)) raw = (t, none) := by
  have hparts : (((str "simple explanation").isPrefixOf
        (pyLower (pyStrip raw)) = false ∧
      (str "signs to notice").isPrefixOf (pyLower (pyStrip raw)) = false) ∧
      (str "care advice").isPrefixOf (pyLower (pyStrip raw)) = false) ∧
      (str "doctor consultation").isPrefixOf (pyLower (pyStrip raw)) = false := by
    simpa [isHeaderLine, Bool.or_eq_false_iff] using h
  obtain ⟨⟨⟨h1, h2⟩, h3⟩, h4⟩ := hparts
  exact parseLineCore_none t (pyStrip raw) h1 h2 h3 h4

lemma foldl_no_header (lines : List PyStr) (t : Sections)
    (h : ∀ l ∈ lines, isHeaderLine l = false) :
    List.foldl parseLine (t, (none : Option SectionKind)) lines =
      (t, none) := by
  induction lines with
  | nil => rfl
  | cons l rest ih =>
    rw [List.foldl_cons, parseLine_no_header t l (h l (by simp))]
    exact ih (fun m hm => h m (by simp [hm]))

lemma geminiLoop_calls_le (nlp : Tagger) (gen : Nat → Option PyStr)
    (term ud se : PyStr) :
    ∀ fuel attempt calls,
      (geminiLoop nlp gen term ud se fuel attempt calls).2 ≤ calls + fuel := by
  intro fuel
  induction fuel with
  | zero =>
    intro attempt calls
    simp [geminiLoop]
  | succ n ih =>
    intro attempt calls
    simp only [geminiLoop]
    split
    · have := ih (attempt + 1) (calls + 1)
      omega
    · split
      · show calls + 1 ≤ calls + (n + 1)
        omega
      · have := ih (attempt + 1) (calls + 1)
        omega

lemma geminiLoop_all_fail (nlp : Tagger) (gen : Nat → Option PyStr)
    (term ud se : PyStr) :
    ∀ fuel attempt calls,
      (∀ i, attempt ≤ i → i < attempt + fuel → attemptOk nlp gen ud i = false) →
      geminiLoop nlp gen term ud se fuel attempt calls =
        (none, calls + fuel) := by
  intro fuel
  induction fuel with
  | zero =>
    intro attempt calls _
    simp [geminiLoop]
  | succ n ih =>
    intro attempt calls h
    have hcur : attemptOk nlp gen ud attempt = false :=
      h attempt (Nat.le_refl _) (by omega)
    have hrec := ih (attempt + 1) (calls + 1)
      (fun i hi1 hi2 => h i (by omega) (by omega))
    have hca : calls + 1 + n = calls + (n + 1) := by omega
    simp only [geminiLoop]
    split
    · rw [hrec, hca]
    · next txt hg =>
      simp only [attemptOk, hg] at hcur
      rw [if_neg (by simp [hcur]), hrec, hca]

lemma extract_nil (nlp : Tagger) : extract_key_concepts nlp [] = ∅ := by
  simp [extract_key_concepts]

lemma validate_empty_def (nlp : Tagger) (r : GeminiResponse) (thr : ℚ) :
    validate_response_coverage nlp [] r thr = 1 := by
  simp [validate_response_coverage]

lemma validate_empty_concepts (nlp : Tagger) (d : PyStr) (r : GeminiResponse)
    (thr : ℚ) (hd : d ≠ []) (hu : extract_key_concepts nlp d = ∅) :
    validate_response_coverage nlp d r thr = 0 := by
  simp [validate_response_coverage, hd, hu]

lemma validate_div (nlp : Tagger) (d : PyStr) (r : GeminiResponse) (thr : ℚ)
    (hu : extract_key_concepts nlp d ≠ ∅) :
    validate_response_coverage nlp d r thr =
      ((extract_key_concepts nlp d ∩
        extract_key_concepts nlp (respText r)).card : ℚ) /
      ((extract_key_concepts nlp d).card : ℚ) := by
  have hd : d ≠ [] := by
    intro h
    exact hu (h ▸ extract_nil nlp)
  simp [validate_response_coverage, hd, hu]

lemma geminiLoop_first_ok (nlp : Tagger) (gen : Nat → Option PyStr)
    (term ud se txt : PyStr) (fuel attempt calls : Nat)
    (hg : gen attempt = some txt)
    (hacc : pyTruthy (validate_response_coverage nlp ud
      (parse_gemini_response txt).toResp (2/5)) = true) :
    geminiLoop nlp gen term ud se (fuel + 1) attempt calls =
      (some (PipelineResult.Accepted term (parse_gemini_response txt).toResp
        ud ((pyWords (craftPrompt term ud se)).length +
            (pyWords txt).length)),
       calls + 1) := by
  simp only [geminiLoop]
  split
  · next hg2 => rw [hg2] at hg; cases hg
  · next txt2 hg2 =>
    rw [hg2] at hg
    injection hg with hg
    subst hg
    rw [if_pos hacc]

/-- A candidate mapping with every absent key replaced by the default the
source reads through `dict.get`. -/
def fillDefaults (g : GeminiResponse) : GeminiResponse :=
  ⟨some (g.simple_explanation.getD []), some (g.signs_to_notice.getD []),
   some (g.care_advice.getD []), some (g.doctor_consultation_advice.getD [])⟩

lemma respText_fill (g : GeminiResponse) :
    respText (fillDefaults g) = respText g := by
  simp [respText, fillDefaults]

lemma bullet_decomp {s : PyStr} (h : (str "•").isPrefixOf s = true) :
    ∃ rest, s = '•' :: rest := by
  cases s with
  | nil => simp [List.isPrefixOf] at h
  | cons c cs =>
    rw [show str "•" = '•' :: ([] : PyStr) from rfl, pref_cons_cons] at h
    have hbc : ('•' == c) = true := by
      cases hx : ('•' == c)
      · rw [hx] at h; simp at h
      · rfl
    exact ⟨cs, by rw [← (beq_iff_eq.mp hbc)]⟩

/-! Claim theorems. -/

/-- C1 (code bug evaluation): the source's acceptance check at
`gemini.py` line 202 tests only the truthiness of the coverage, so a
candidate with coverage 1/3 — strictly below the documented threshold
0.4 — is Accepted by the pipeline, contradicting the claimed
`coverage >= threshold` decision (spec §9 flags exactly this divergence
as a bug in the source). -/
theorem C1_truthiness_acceptance_eval :
    validate_response_coverage wsTagger (str "fever cough contagious")
      (parse_gemini_response (str "SIMPLE EXPLANATION: fever rest")).toResp
      (2/5) = 1/3 ∧
    ¬ ((1 : ℚ)/3 ≥ 2/5) ∧
    isAccepted (query_gemini wsTagger
      (fun _ => [str "fever cough contagious"])
      (fun _ => some (str "SIMPLE EXPLANATION: fever rest"))
      (str "flu") (str "x") 3).1 = true := by
  have hval : validate_response_coverage wsTagger
      (str "fever cough contagious")
      (parse_gemini_response (str "SIMPLE EXPLANATION: fever rest")).toResp
      (2/5) = 1/3 := by
    rw [validate_div _ _ _ _ (by decide),
      show (extract_key_concepts wsTagger (str "fever cough contagious") ∩
        extract_key_concepts wsTagger (respText
          (parse_gemini_response
            (str "SIMPLE EXPLANATION: fever rest")).toResp)).card = 1
        from by decide,
      show (extract_key_concepts wsTagger
        (str "fever cough contagious")).card = 3 from by decide]
    norm_num
  refine ⟨hval, by norm_num, ?_⟩
  have htr : pyTruthy (validate_response_coverage wsTagger
      (str "fever cough contagious")
      (parse_gemini_response (str "SIMPLE EXPLANATION: fever rest")).toResp
      (2/5)) = true := by
    rw [hval]
    simp only [pyTruthy, decide_eq_true_eq]
    norm_num
  unfold query_gemini
  rw [show lookupDef (fun _ => [str "fever cough contagious"]) (str "flu") =
      str "fever cough contagious" from rfl,
    show (3 : Nat) = 2 + 1 from rfl,
    geminiLoop_first_ok wsTagger _ (str "flu") _ (str "x") _ 2 0 0 rfl htr]
  rfl

/-- C2 counterexample: a non-empty reference definition ("a of") whose
extracted ConceptSet is empty makes `validate_response_coverage` return
0.0, not the claimed 1.0 (the 1.0 branch fires only when the definition
string itself is falsy). -/
theorem C2_empty_concepts_cex :
    str "a of" ≠ [] ∧
    extract_key_concepts wsTagger (str "a of") = ∅ ∧
    validate_response_coverage wsTagger (str "a of")
      ⟨none, none, none, none⟩ (2/5) = 0 ∧
    (0 : ℚ) ≠ 1 := by
  refine ⟨by decide, by decide, ?_, by norm_num⟩
  exact validate_empty_concepts _ _ _ _ (by decide) (by decide)

/-- C2 (amended): `validate_response_coverage` returns 1.0 when the
reference definition is empty; when the definition is non-empty but its
extracted ConceptSet is empty it returns 0.0; and the division is only
performed when the reference concept set — the divisor — is non-empty,
so no division by zero ever occurs. -/
theorem C2_empty_reference_amended (nlp : Tagger) (d : PyStr)
    (r : GeminiResponse) (thr : ℚ) :
    (d = [] → validate_response_coverage nlp d r thr = 1) ∧
    (d ≠ [] → extract_key_concepts nlp d = ∅ →
      validate_response_coverage nlp d r thr = 0) ∧
    (extract_key_concepts nlp d ≠ ∅ →
      ((extract_key_concepts nlp d).card : ℚ) ≠ 0 ∧
      validate_response_coverage nlp d r thr =
        ((extract_key_concepts nlp d ∩
          extract_key_concepts nlp (respText r)).card : ℚ) /
        ((extract_key_concepts nlp d).card : ℚ)) := by
  refine ⟨?_, ?_, ?_⟩
  · intro h
    subst h
    exact validate_empty_def nlp r thr
  · intro hd hu
    exact validate_empty_concepts nlp d r thr hd hu
  · intro hu
    constructor
    · have hc : (extract_key_concepts nlp d).card ≠ 0 := by
        simpa [Finset.card_eq_zero] using hu
      exact_mod_cast hc
    · exact validate_div nlp d r thr hu

/-- Witness for C2 (amended) at the empty reference definition. -/
theorem C2_empty_reference_amended_witness :
    validate_response_coverage wsTagger [] ⟨none, none, none, none⟩
      (2/5) = 1 :=
  (C2_empty_reference_amended wsTagger [] ⟨none, none, none, none⟩ (2/5)).1
    rfl

/-- C3: the retry loop of `query_gemini` invokes the generator at most
`max_attempts` times, and when every attempt is rejected or fails it
invokes it exactly `max_attempts` times and returns the Fallback result
carrying the error marker. -/
theorem C3_bounded_retries (nlp : Tagger) (lookup : PyStr → List PyStr)
    (gen : Nat → Option PyStr) (term se : PyStr) (max_attempts : Nat) :
    (query_gemini nlp lookup gen term se max_attempts).2 ≤ max_attempts ∧
    ((∀ i, i < max_attempts →
        attemptOk nlp gen (lookupDef lookup term) i = false) →
      (query_gemini nlp lookup gen term se max_attempts).2 = max_attempts ∧
      (query_gemini nlp lookup gen term se max_attempts).1 =
        fallbackResult term se) := by
  constructor
  · have hle := geminiLoop_calls_le nlp gen term (lookupDef lookup term) se
      max_attempts 0 0
    unfold query_gemini
    cases hL : geminiLoop nlp gen term (lookupDef lookup term) se
        max_attempts 0 0 with
    | mk o calls =>
      rw [hL] at hle
      cases o with
      | none => simpa using hle
      | some r => simpa using hle
  · intro hfail
    have hrun := geminiLoop_all_fail nlp gen term (lookupDef lookup term) se
      max_attempts 0 0 (fun i _ h2 => hfail i (by omega))
    unfold query_gemini
    rw [hrun]
    exact ⟨by simp, by simp⟩

/-- Witness for C3 with a generator that fails on every attempt. -/
theorem C3_bounded_retries_witness :
    (query_gemini wsTagger (fun _ => []) (fun _ => none)
      (str "flu") (str "x") 3).2 = 3 ∧
    (query_gemini wsTagger (fun _ => []) (fun _ => none)
      (str "flu") (str "x") 3).1 = fallbackResult (str "flu") (str "x") :=
  (C3_bounded_retries wsTagger (fun _ => []) (fun _ => none)
    (str "flu") (str "x") 3).2 (by decide)

/-- C4 counterexample: the fallback's `medical_details` mapping carries
only the `simple_explanation` key; the other three section fields are
absent (`none`), not present-and-empty as the claim states. -/
theorem C4_fallback_fields_cex :
    (query_gemini wsTagger (fun _ => []) (fun _ => none)
      (str "cold") (str "expl") 2).1 =
      PipelineResult.Fallback (str "cold") (fallbackDetails (str "cold"))
        (str "Could not generate an accurate medical explanation")
        (str "expl") ∧
    (fallbackDetails (str "cold")).signs_to_notice = none ∧
    (fallbackDetails (str "cold")).signs_to_notice ≠ some [] ∧
    (fallbackDetails (str "cold")).care_advice ≠ some [] ∧
    (fallbackDetails (str "cold")).doctor_consultation_advice ≠ some [] := by
  refine ⟨by decide, rfl, by simp [fallbackDetails], by simp [fallbackDetails],
    by simp [fallbackDetails]⟩

/-- C4 (amended): when every attempt is rejected or fails, `query_gemini`
returns (never raises) a Fallback whose `simple_explanation` states that
no explanation could be generated for the term, whose other three section
keys are absent from the mapping (`none`; they read as empty through the
defaulting `dict.get` access), which carries the explicit error marker
and the original caller-supplied explanation. -/
theorem C4_fallback_shape_amended (nlp : Tagger)
    (lookup : PyStr → List PyStr) (gen : Nat → Option PyStr)
    (term se : PyStr) (max_attempts : Nat)
    (hfail : ∀ i, i < max_attempts →
      attemptOk nlp gen (lookupDef lookup term) i = false) :
    (query_gemini nlp lookup gen term se max_attempts).1 =
      PipelineResult.Fallback term
        ⟨some (str "Could not generate an explanation for " ++ term),
         none, none, none⟩
        (str "Could not generate an accurate medical explanation") se := by
  have hrun := geminiLoop_all_fail nlp gen term (lookupDef lookup term) se
    max_attempts 0 0 (fun i _ h2 => hfail i (by omega))
  unfold query_gemini
  rw [hrun]
  simp [fallbackResult, fallbackDetails]

/-- Witness for C4 (amended) at a concrete always-failing generator. -/
theorem C4_fallback_shape_amended_witness :
    (query_gemini wsTagger (fun _ => []) (fun _ => none)
      (str "cold") (str "expl") 2).1 =
      PipelineResult.Fallback (str "cold")
        ⟨some (str "Could not generate an explanation for " ++ str "cold"),
         none, none, none⟩
        (str "Could not generate an accurate medical explanation")
        (str "expl") :=
  C4_fallback_shape_amended wsTagger (fun _ => []) (fun _ => none)
    (str "cold") (str "expl") 2 (by decide)

/-- C5: for a reference definition with a non-empty extracted concept
set, the returned coverage is exactly the intersection cardinality over
the reference cardinality — the candidate concepts being extracted from
the space-joined concatenation of the four section values (`respText`) —
and in all cases the returned coverage lies in [0, 1]. -/
theorem C5_coverage_formula (nlp : Tagger) (d : PyStr) (r : GeminiResponse)
    (thr : ℚ) :
    (extract_key_concepts nlp d ≠ ∅ →
      validate_response_coverage nlp d r thr =
        ((extract_key_concepts nlp d ∩
          extract_key_concepts nlp (respText r)).card : ℚ) /
        ((extract_key_concepts nlp d).card : ℚ)) ∧
    0 ≤ validate_response_coverage nlp d r thr ∧
    validate_response_coverage nlp d r thr ≤ 1 := by
  refine ⟨fun hu => validate_div nlp d r thr hu, ?_, ?_⟩
  · by_cases hd : d = []
    · subst hd
      rw [validate_empty_def]
      norm_num
    · by_cases hu : extract_key_concepts nlp d = ∅
      · rw [validate_empty_concepts nlp d r thr hd hu]
      · rw [validate_div nlp d r thr hu]
        apply div_nonneg
        · exact Nat.cast_nonneg _
        · exact Nat.cast_nonneg _
  · by_cases hd : d = []
    · subst hd
      rw [validate_empty_def]
    · by_cases hu : extract_key_concepts nlp d = ∅
      · rw [validate_empty_concepts nlp d r thr hd hu]
        norm_num
      · rw [validate_div nlp d r thr hu]
        have hpos : 0 < ((extract_key_concepts nlp d).card : ℚ) := by
          have hp := Finset.card_pos.mpr (Finset.nonempty_iff_ne_empty.mpr hu)
          exact_mod_cast hp
        rw [div_le_one hpos]
        have hsub : (extract_key_concepts nlp d ∩
            extract_key_concepts nlp (respText r)).card ≤
            (extract_key_concepts nlp d).card :=
          Finset.card_le_card Finset.inter_subset_left
        exact_mod_cast hsub

/-- Witness for C5 at the spec's overlap-arithmetic example. -/
theorem C5_coverage_formula_witness :
    extract_key_concepts wsTagger (str "fever cough contagious") ≠ ∅ ∧
    validate_response_coverage wsTagger (str "fever cough contagious")
      ⟨some (str "fever rest"), none, none, none⟩ (2/5) =
      ((extract_key_concepts wsTagger (str "fever cough contagious") ∩
        extract_key_concepts wsTagger (respText
          ⟨some (str "fever rest"), none, none, none⟩)).card : ℚ) /
      ((extract_key_concepts wsTagger (str "fever cough contagious")).card :
        ℚ) :=
  ⟨by decide, (C5_coverage_formula wsTagger (str "fever cough contagious")
    ⟨some (str "fever rest"), none, none, none⟩ (2/5)).1 (by decide)⟩

/-- C6: parsing is total (the embedding is a total function), and raw
text in which no line matches any of the four recognised headers parses
to the all-empty sections record. -/
theorem C6_malformed_degrades (x : PyStr)
    (h : ∀ l ∈ pyLines (pyStrip x), isHeaderLine l = false) :
    parse_gemini_response x = ⟨[], [], [], []⟩ := by
  unfold parse_gemini_response
  rw [foldl_no_header _ _ h]

/-- Witness for C6 on a header-free text. -/
theorem C6_malformed_degrades_witness :
    (∀ l ∈ pyLines (pyStrip (str "hello\nworld")),
      isHeaderLine l = false) ∧
    parse_gemini_response (str "hello\nworld") = ⟨[], [], [], []⟩ :=
  ⟨by decide, C6_malformed_degrades (str "hello\nworld") (by decide)⟩

/-- C7 counterexample: in the SIGNS state the line "• a•b" is appended as
"ab" — `line.replace("•", "")` removes every bullet occurrence — whereas
the claim (strip exactly the leading marker) would require "a•b". -/
theorem C7_bullet_strip_cex :
    parse_gemini_response (str "SIGNS TO NOTICE:\n• a•b") =
      ⟨[], [str "ab"], [], []⟩ ∧
    str "ab" ≠ str "a•b" := by
  exact ⟨by decide, by decide⟩

/-- C7 (amended): while in the SIGNS (resp. CARE_ADVICE) state, a
stripped line beginning with "•" is appended to the active list with
EVERY occurrence of "•" removed and the result whitespace-trimmed; a
line not beginning with "•" adds no entry to either list. -/
theorem C7_bullet_lines_amended (t : Sections) (cur : Option SectionKind)
    (raw : PyStr) :
    (cur = some SectionKind.signs →
      (str "•").isPrefixOf (pyStrip raw) = true →
      parseLine (t, cur) raw =
        ({t with signs_to_notice := t.signs_to_notice ++
            [pyStrip ((pyStrip raw).filter (fun c => c != '•'))]}, cur)) ∧
    (cur = some SectionKind.care →
      (str "•").isPrefixOf (pyStrip raw) = true →
      parseLine (t, cur) raw =
        ({t with care_advice := t.care_advice ++
            [pyStrip ((pyStrip raw).filter (fun c => c != '•'))]}, cur)) ∧
    ((str "•").isPrefixOf (pyStrip raw) = false →
      (parseLine (t, cur) raw).1.signs_to_notice = t.signs_to_notice ∧
      (parseLine (t, cur) raw).1.care_advice = t.care_advice) := by
  refine ⟨?_, ?_, ?_⟩
  · intro hcur hpref
    subst hcur
    obtain ⟨rest, hdec⟩ := bullet_decomp hpref
    obtain ⟨hc1, hc2, hc3, hc4⟩ := bullet_line_conds rest
    show parseLineCore (t, some SectionKind.signs) (pyStrip raw) = _
    rw [hdec]
    unfold parseLineCore
    rw [if_neg (by simp [hc1]), if_neg (by simp [hc2]),
      if_neg (by simp [hc3]), if_neg (by simp [hc4]),
      if_pos ⟨rfl, bullet_pref rest⟩]
  · intro hcur hpref
    subst hcur
    obtain ⟨rest, hdec⟩ := bullet_decomp hpref
    obtain ⟨hc1, hc2, hc3, hc4⟩ := bullet_line_conds rest
    show parseLineCore (t, some SectionKind.care) (pyStrip raw) = _
    rw [hdec]
    unfold parseLineCore
    rw [if_neg (by simp [hc1]), if_neg (by simp [hc2]),
      if_neg (by simp [hc3]), if_neg (by simp [hc4]), if_neg (by simp),
      if_pos ⟨rfl, bullet_pref rest⟩]
  · intro hnp
    unfold parseLine parseLineCore
    split
    · exact ⟨rfl, rfl⟩
    · split
      · exact ⟨rfl, rfl⟩
      · split
        · exact ⟨rfl, rfl⟩
        · split
          · exact ⟨rfl, rfl⟩
          · split
            · next hb => exact absurd hb.2 (by simp [hnp])
            · split
              · next hb => exact absurd hb.2 (by simp [hnp])
              · split
                · exact ⟨rfl, rfl⟩
                · exact ⟨rfl, rfl⟩

/-- Witness for C7 (amended) on a concrete bullet line in the SIGNS
state. -/
theorem C7_bullet_lines_amended_witness :
    parseLine ((⟨[], [], [], []⟩ : Sections), some SectionKind.signs)
      (str "• fever") =
      ((⟨[], [pyStrip ((pyStrip (str "• fever")).filter
          (fun c => c != '•'))], [], []⟩ : Sections),
       some SectionKind.signs) :=
  (C7_bullet_lines_amended ⟨[], [], [], []⟩ (some SectionKind.signs)
    (str "• fever")).1 rfl (by decide)

/-- C8 counterexample: parsing "SIMPLE EXPLANATION:\nfoo" yields
`simple_explanation = " foo"` (the continuation line is appended after a
space), and re-parsing the re-rendered form strips that leading space,
so parse ∘ render ∘ parse ≠ parse. -/
theorem C8_round_trip_cex :
    parse_gemini_response (renderSections
      (parse_gemini_response (str "SIMPLE EXPLANATION:\nfoo"))) ≠
    parse_gemini_response (str "SIMPLE EXPLANATION:\nfoo") := by decide

/-- C8 (amended): re-parsing the re-rendered form of a first-parse result
yields an equal GeneratedSections whenever the first parse's
`simple_explanation` carries no leading whitespace/colon characters and
no trailing whitespace (`freeWf`); the counterexample shows such
characters — which the first parse can introduce by space-joining
continuation lines — are stripped by the round trip. -/
theorem C8_round_trip_amended (x : PyStr)
    (h : freeWf (parse_gemini_response x).simple_explanation = true) :
    parse_gemini_response (renderSections (parse_gemini_response x)) =
      parse_gemini_response x :=
  parse_render _ (wf_parse x) h

/-- Witness for C8 (amended) on a fully populated generated text. -/
theorem C8_round_trip_amended_witness :
    freeWf (parse_gemini_response
      (str "SIMPLE EXPLANATION: ok\nSIGNS TO NOTICE:\n• a\nCARE ADVICE:\n• b\nDOCTOR CONSULTATION: soon")).simple_explanation
      = true ∧
    parse_gemini_response (renderSections (parse_gemini_response
      (str "SIMPLE EXPLANATION: ok\nSIGNS TO NOTICE:\n• a\nCARE ADVICE:\n• b\nDOCTOR CONSULTATION: soon"))) =
    parse_gemini_response
      (str "SIMPLE EXPLANATION: ok\nSIGNS TO NOTICE:\n• a\nCARE ADVICE:\n• b\nDOCTOR CONSULTATION: soon") :=
  ⟨by decide, C8_round_trip_amended _ (by decide)⟩

/-- C9 counterexample: the surface-length filter does not bound the
length of the stored lemma — a tagger output pairing the 4-character
surface "cats" with the 1-character lemma "c" puts the 1-character token
"c" into the ConceptSet. -/
theorem C9_short_lemma_cex :
    str "c" ∈ extract_key_concepts shortLemmaTagger (str "cats") ∧
    (str "c").length < 3 := by decide

/-- C9 (amended): every member of the ConceptSet is the lowercased lemma
of some tagged token whose part-of-speech is NOUN or PROPN and whose
SURFACE form is longer than 2 characters (the lemma itself may be
shorter); the set is duplicate-free by construction (`Finset`), and empty
(falsy) input yields the empty set. -/
theorem C9_extract_invariants_amended (nlp : Tagger) (text : PyStr)
    (w : PyStr) :
    (w ∈ extract_key_concepts nlp text →
      ∃ token ∈ nlp text,
        (token.pos_ = str "NOUN" ∨ token.pos_ = str "PROPN") ∧
        2 < token.text.length ∧ w = pyLower token.lemma_) ∧
    (text = [] → extract_key_concepts nlp text = ∅) := by
  constructor
  · intro hw
    by_cases ht : text = []
    · rw [ht, extract_nil] at hw
      exact absurd hw (Finset.not_mem_empty w)
    · rw [extract_key_concepts, if_neg ht] at hw
      obtain ⟨token, htok, hweq⟩ := List.mem_map.mp (List.mem_toFinset.mp hw)
      obtain ⟨hmem, hdecide⟩ := List.mem_filter.mp htok
      have hprops := of_decide_eq_true hdecide
      exact ⟨token, hmem, hprops.1, hprops.2, hweq.symm⟩
  · intro h
    rw [h]
    exact extract_nil nlp

/-- Witness for C9 (amended) at a concrete extracted concept. -/
theorem C9_extract_invariants_amended_witness :
    str "fever" ∈ extract_key_concepts wsTagger (str "fever cough") ∧
    ∃ token ∈ wsTagger (str "fever cough"),
      (token.pos_ = str "NOUN" ∨ token.pos_ = str "PROPN") ∧
      2 < token.text.length ∧ str "fever" = pyLower token.lemma_ :=
  ⟨by decide, (C9_extract_invariants_amended wsTagger (str "fever cough")
    (str "fever")).1 (by decide)⟩

/-- C10: `validate_response_coverage` treats an absent section key as the
empty default — scoring a partial mapping equals scoring the mapping with
every absent key filled with its default — and in particular the
pipeline's fallback mapping, which carries only `simple_explanation`, is
scored (here to coverage 0 against the "fever cough contagious"
reference under the word tagger). -/
theorem C10_partial_mapping_total (nlp : Tagger) (d : PyStr) (thr : ℚ)
    (g : GeminiResponse) :
    validate_response_coverage nlp d g thr =
      validate_response_coverage nlp d (fillDefaults g) thr ∧
    validate_response_coverage wsTagger (str "fever cough contagious")
      (fallbackDetails (str "flu")) (2/5) = 0 := by
  constructor
  · unfold validate_response_coverage
    rw [respText_fill]
  · rw [validate_div _ _ _ _ (by decide),
      show (extract_key_concepts wsTagger (str "fever cough contagious") ∩
        extract_key_concepts wsTagger
          (respText (fallbackDetails (str "flu")))).card = 0
        from by decide,
      show (extract_key_concepts wsTagger
        (str "fever cough contagious")).card = 3 from by decide]
    norm_num
